import Mathlib

/-!
# Verification of the FOV line/node generation core (fov-visualization-rust)

Shallow embedding of the 2D FOV core: geometric primitives
(`src/common/math.rs`), FOV line generation and octant wall tables
(`src/common/fov.rs`), and the 16-bit FOV node builder
(`src/simple/fovmap_q16.rs` / `src/simple/builder.rs`).

Embedding conventions:
* `f64` values are embedded as exact rationals (`Rat`).  Every constant in the
  program is a decimal literal (`0.5`, `0.51`, `0.25`, small integers), and the
  arithmetic performed on them (addition, subtraction, multiplication,
  comparisons) is modelled exactly; the embedded comparisons therefore follow
  the same branch structure as the source.
* `u8` / `u16` values are embedded as `Nat`.  In every reachable state of the
  embedded functions, the values stay far below `2^8` / `2^16`, so no wrap
  modelling is needed (`dpri`/`dsec` never exceed 128; a bit index never
  exceeds 15 for the 16-line Single list used with the 16-bit builder).
* Two functions called by the node builder (`dist_u8` and `Line::shifted_by`)
  are declared in the repository's `math` module but their definitions are not
  part of the provided sources; they are modelled from the spec, and are marked
  as such in their doc comments.
-/

namespace Fov2d

/-! ## Geometric primitives (`src/common/math.rs`) -/

/-- 2D point (`Point` in `math.rs`), with `f64` coordinates embedded as `Rat`. -/
structure Point where
  x : Rat
  y : Rat
deriving DecidableEq

/-- 2D line segment (`Line` in `math.rs`), with `f64` coordinates embedded as
`Rat`.  Fields in source order: `x1, y1, x2, y2`. -/
structure Line where
  x1 : Rat
  y1 : Rat
  x2 : Rat
  y2 : Rat
deriving DecidableEq

/-- `Line::intersects` from `math.rs`: parametric segment-segment intersection
test.  Segment 1 is `self` (parameter `t`), segment 2 is `other` (parameter
`u`).  Returns `false` when `denom == 0`, or when `t_num`/`u_num` fall strictly
outside `[0, denom]` (sign-aware); otherwise `true`. -/
def Line.intersects (self other : Line) : Bool :=
  let x1 := self.x1; let y1 := self.y1; let x2 := self.x2; let y2 := self.y2
  let x3 := other.x1; let y3 := other.y1; let x4 := other.x2; let y4 := other.y2
  let denom := (x1 - x2) * (y3 - y4) - (y1 - y2) * (x3 - x4)
  if denom = 0 then false
  else
    let t_num := (x1 - x3) * (y3 - y4) - (y1 - y3) * (x3 - x4)
    if (t_num > 0 ∧ t_num > denom) ∨ (t_num < 0 ∧ t_num < denom) then false
    else
      let u_num := (x1 - x3) * (y1 - y2) - (y1 - y3) * (x1 - x2)
      if (u_num > 0 ∧ u_num > denom) ∨ (u_num < 0 ∧ u_num < denom) then false
      else true

/-- `Line::intersection` from `math.rs`: same guards as `Line::intersects`, but
returning the intersection point `(x1 + t(x2-x1), y1 + t(y2-y1))` with
`t = t_num / denom` instead of a boolean. -/
def Line.intersection (self other : Line) : Option Point :=
  let x1 := self.x1; let y1 := self.y1; let x2 := self.x2; let y2 := self.y2
  let x3 := other.x1; let y3 := other.y1; let x4 := other.x2; let y4 := other.y2
  let denom := (x1 - x2) * (y3 - y4) - (y1 - y2) * (x3 - x4)
  if denom = 0 then none
  else
    let t_num := (x1 - x3) * (y3 - y4) - (y1 - y3) * (x3 - x4)
    if (t_num > 0 ∧ t_num > denom) ∨ (t_num < 0 ∧ t_num < denom) then none
    else
      let u_num := (x1 - x3) * (y1 - y2) - (y1 - y3) * (x1 - x2)
      if (u_num > 0 ∧ u_num > denom) ∨ (u_num < 0 ∧ u_num < denom) then none
      else
        let t := t_num / denom
        some ⟨x1 + t * (x2 - x1), y1 + t * (y2 - y1)⟩

/-- The denominator of the parametric intersection computation of
`Line::intersects` / `Line::intersection`:
`(x1-x2)(y3-y4) - (y1-y2)(x3-x4)`. -/
def Line.denom (self other : Line) : Rat :=
  (self.x1 - self.x2) * (other.y1 - other.y2) -
    (self.y1 - self.y2) * (other.x1 - other.x2)

/-- The `t` numerator of `Line::intersects` / `Line::intersection`:
`(x1-x3)(y3-y4) - (y1-y3)(x3-x4)`. -/
def Line.t_num (self other : Line) : Rat :=
  (self.x1 - other.x1) * (other.y1 - other.y2) -
    (self.y1 - other.y1) * (other.x1 - other.x2)

/-- The `u` numerator of `Line::intersects` / `Line::intersection`:
`(x1-x3)(y1-y2) - (y1-y3)(x1-x2)`. -/
def Line.u_num (self other : Line) : Rat :=
  (self.x1 - other.x1) * (self.y1 - self.y2) -
    (self.y1 - other.y1) * (self.x1 - self.x2)

/-- Membership of `v` in the closed interval between `0` and `d`, whichever
way round they are ordered (the sign-aware closed interval `[0, d]`). -/
def inClosed (d v : Rat) : Prop :=
  (0 ≤ v ∧ v ≤ d) ∨ (d ≤ v ∧ v ≤ 0)

/-- Modelled from the spec: `Line.shifted_by(dx, dy)` translates both endpoints
of the segment by `(dx, dy)`.  The function is called by both node builders and
listed in §4.1 of the spec, but its definition is absent from the provided
sources (the `math.rs` snapshot has only `Point::shifted_by`). -/
def Line.shifted_by (l : Line) (dx dy : Rat) : Line :=
  ⟨l.x1 + dx, l.y1 + dy, l.x2 + dx, l.y2 + dy⟩

/-! ## FOV radius, Q-factor, lines and wall tables (`src/common/fov.rs`) -/

/-- `FovRadius` from `fov.rs`. -/
inductive FovRadius where
  | R16
  | R32
  | R64
  | R128
deriving DecidableEq

/-- `FovRadius::to_int` (`u8` embedded as `Nat`). -/
def FovRadius.to_int : FovRadius → Nat
  | .R16 => 16
  | .R32 => 32
  | .R64 => 64
  | .R128 => 128

/-- `FovRadius::to_flt` (`f64` embedded as `Rat`). -/
def FovRadius.to_flt : FovRadius → Rat
  | .R16 => 16
  | .R32 => 32
  | .R64 => 64
  | .R128 => 128

/-- `QFactor` from `fov.rs`. -/
inductive QFactor where
  | Single
  | Double
deriving DecidableEq

/-- `Octant` from `fov.rs`: the eight primary subdivisions of an FOV map. -/
inductive Octant where
  | O1
  | O2
  | O3
  | O4
  | O5
  | O6
  | O7
  | O8
deriving DecidableEq

/-- `get_fov_lines_single` from `fov.rs`: one line per `n in 0..radius_int`,
from the tile center `(0.5, 0.5)` to `(0.5 + radius, 0.5 + n + 0.51)` in
`(pri, sec)` coordinates. -/
def get_fov_lines_single (rfov : FovRadius) : List Line :=
  let radius := rfov.to_flt
  let p0pri : Rat := 0.5
  let p0sec : Rat := 0.5
  (List.range rfov.to_int).map fun (n : Nat) =>
    let dpri := radius
    let dsec := (n : Rat) + 0.51
    Line.mk p0pri p0sec (p0pri + dpri) (p0sec + dsec)

/-- `get_fov_lines_double` from `fov.rs`: a first line at secondary offset
`0.25`, two lines at `n - 0.25` and `n + 0.25` for each `n in 1..radius_int`,
and a final line at `radius - 0.25`. -/
def get_fov_lines_double (rfov : FovRadius) : List Line :=
  let radius := rfov.to_flt
  let p0pri : Rat := 0.5
  let p0sec : Rat := 0.5
  let line_i := Line.mk p0pri p0sec (p0pri + radius) (p0sec + 0.25)
  let mids := (List.range' 1 (rfov.to_int - 1)).flatMap fun (n : Nat) =>
    [Line.mk p0pri p0sec (p0pri + radius) (p0sec + (n : Rat) - 0.25),
     Line.mk p0pri p0sec (p0pri + radius) (p0sec + (n : Rat) + 0.25)]
  let line_f := Line.mk p0pri p0sec (p0pri + radius) (p0sec + radius - 0.25)
  line_i :: (mids ++ [line_f])

/-- `get_fov_lines` from `fov.rs`: dispatch on the Q-factor. -/
def get_fov_lines (rfov : FovRadius) (qfactor : QFactor) : List Line :=
  match qfactor with
  | .Single => get_fov_lines_single rfov
  | .Double => get_fov_lines_double rfov

/-- `body_lines` from `fov.rs`: the two canonical body edge segments
`(0,0)-(0,1)` and `(0,0)-(1,0)` in `(pri, sec)` space, shared by all octants. -/
def body_lines : Line × Line :=
  (⟨0, 0, 0, 1⟩, ⟨0, 0, 1, 0⟩)

/-- `wall_n_line` from `fov.rs`: the per-octant north-wall edge segment in
`(pri, sec)` space. -/
def wall_n_line (octant : Octant) : Line :=
  match octant with
  | .O1 => ⟨0, 1, 1, 1⟩
  | .O2 => ⟨1, 0, 1, 1⟩
  | .O3 => ⟨1, 0, 1, 1⟩
  | .O4 => ⟨0, 1, 1, 1⟩
  | .O5 => ⟨0, 0, 1, 0⟩
  | .O6 => ⟨0, 0, 0, 1⟩
  | .O7 => ⟨0, 0, 0, 1⟩
  | .O8 => ⟨0, 0, 1, 0⟩

/-- `wall_w_line` from `fov.rs`: the per-octant west-wall edge segment in
`(pri, sec)` space. -/
def wall_w_line (octant : Octant) : Line :=
  match octant with
  | .O1 => ⟨0, 0, 0, 1⟩
  | .O2 => ⟨0, 0, 1, 0⟩
  | .O3 => ⟨0, 1, 1, 1⟩
  | .O4 => ⟨1, 0, 1, 1⟩
  | .O5 => ⟨1, 0, 1, 1⟩
  | .O6 => ⟨0, 1, 1, 1⟩
  | .O7 => ⟨0, 0, 1, 0⟩
  | .O8 => ⟨0, 0, 0, 1⟩

/-! ## The 16-bit node builder (`src/simple/fovmap_q16.rs`) -/

/-- `FovNode16` from `fovmap_q16.rs` / `builder.rs`: a 16-bit body mask
(`u16`, embedded as `Nat`; always below `2^16` for the 16-line Single list
used with this builder) plus the `(dpri, dsec)` offset (`u8`, embedded as
`Nat`). -/
structure FovNode16 where
  body : Nat
  dpri : Nat
  dsec : Nat
deriving DecidableEq

/-- Modelled from the spec: `dist_u8(dpri, dsec) > radius`, the circular
culling test of the node builders.  `dist_u8` is imported from the
repository's `math` module by both builders but its definition is absent from
the provided sources; §3 and §4.4 of the spec define it as the Euclidean
distance `sqrt(dpri^2 + dsec^2)`.  Since the square root is irrational we
embed the comparison against `radius` directly: a distance (nonnegative)
exceeds a negative radius always, and exceeds a nonnegative radius exactly
when the squared distance exceeds the squared radius. -/
def dist_u8_gt (dpri dsec : Nat) (radius : Rat) : Bool :=
  radius < 0 ∨ (dpri : Rat) ^ 2 + (dsec : Rat) ^ 2 > radius ^ 2

/-- The state of the octant traversal of `build_fov_nodes_q16`:
`(dpri, dsec, dsec_target)`. -/
abbrev SweepState := Nat × Nat × Nat

/-- One iteration of the traversal-state update of `build_fov_nodes_q16`
(`fovmap_q16.rs` lines 162-165), with the branchless `u8` arithmetic of the
source rendered over `Nat`:
`sec_eq = dsec == dsec_target; dpri += sec_eq;
dsec = dsec * !sec_eq + !sec_eq; dsec_target += sec_eq`. -/
def fov_step (s : SweepState) : SweepState :=
  let sec_eq := s.2.1 == s.2.2
  (s.1 + sec_eq.toNat,
   s.2.1 * (!sec_eq).toNat + (!sec_eq).toNat,
   s.2.2 + sec_eq.toNat)

/-- The inner bit loop of `build_fov_nodes_q16` (`fovmap_q16.rs` lines
175-180): for each FOV line at index `bit_ix`, OR `1 << bit_ix` into the
accumulator `body` once per translated body edge the line intersects. -/
def body_mask_aux (l1 l2 : Line) : List Line → Nat → Nat → Nat
  | [], _, body => body
  | fov_line :: rest, bit_ix, body =>
    let to_set := 2 ^ bit_ix
    let body := body ||| to_set * (fov_line.intersects l1).toNat
    let body := body ||| to_set * (fov_line.intersects l2).toNat
    body_mask_aux l1 l2 rest (bit_ix + 1) body

/-- The complete body mask computed by `build_fov_nodes_q16` for the node at
offset `(dpri, dsec)`: both canonical body edges are translated by
`(dpri, dsec)` and every FOV line is tested against both. -/
def body_mask (fov_lines : List Line) (dpri dsec : Nat) : Nat :=
  body_mask_aux (body_lines.1.shifted_by (dpri : Rat) (dsec : Rat))
    (body_lines.2.shifted_by (dpri : Rat) (dsec : Rat)) fov_lines 0 0

/-- The loop of `build_fov_nodes_q16` (`fovmap_q16.rs` lines 161-183):
advance the traversal state, skip the position when the circular culling test
fires, otherwise append the node with its body mask. -/
def build_go (fov_lines : List Line) (radius : Rat) :
    Nat → SweepState → List FovNode16
  | 0, _ => []
  | n + 1, st =>
    let st1 := fov_step st
    if dist_u8_gt st1.1 st1.2.1 radius then build_go fov_lines radius n st1
    else
      { body := body_mask fov_lines st1.1 st1.2.1,
        dpri := st1.1, dsec := st1.2.1 } :: build_go fov_lines radius n st1

/-- The iteration count of `build_fov_nodes_q16`:
`(0..rfov.to_int() + 2).sum() - 1`. -/
def n_total (rfov : FovRadius) : Nat :=
  (List.range (rfov.to_int + 2)).sum - 1

/-- `build_fov_nodes_q16` from `fovmap_q16.rs`: seed with the always-visible
origin node `(0, 0)` (body = `u16::MAX` = 65535), then sweep the octant's
`(dpri, dsec)` positions, culling circularly against
`radius = rfov.to_flt() + circ_adj` and computing a body bitmask for each
surviving position.  (`builder.rs` contains a second, textually identical
copy of this function that additionally asserts `rfov == R16`
and `qfactor == Single`.) -/
def build_fov_nodes_q16 (rfov : FovRadius) (fov_lines : List Line)
    (circ_adj : Rat) : List FovNode16 :=
  let radius := rfov.to_flt + circ_adj
  { body := 65535, dpri := 0, dsec := 0 }
    :: build_go fov_lines radius (n_total rfov) (0, 0, 0)

/-- `u16::count_ones` on a value below `2^16`: the number of set bits among
bit positions `0..16`. -/
def u16_count_ones (n : Nat) : Nat :=
  (List.range 16).countP fun i => n.testBit i

/-! ## Vector normalization (`src/common/math.rs`)

`Vector::magnitude` takes a square root, whose result is irrational in
general, and `Vector::normalize` divides by it, which for `f64` can produce
non-finite values.  To settle the zero-magnitude behaviour exactly we embed
`f64` as an exact rational extended with a single absorbing non-finite value
(covering IEEE-754 NaN and the infinities, which the program never
distinguishes), and parameterize the square root by an arbitrary function —
constrained only where IEEE-754 `sqrt` is exact, e.g. `sqrt 0 = 0`, which is
the one value the zero-magnitude path evaluates. -/

/-- An `f64` value: a finite exact rational, or a non-finite value (NaN or an
infinity; the embedded operations never distinguish them). -/
inductive F64 where
  | fin (q : Rat)
  | nonfinite
deriving DecidableEq

/-- `f64` addition: exact on finite values; non-finite operands propagate. -/
def F64.add : F64 → F64 → F64
  | .fin a, .fin b => .fin (a + b)
  | _, _ => .nonfinite

/-- `f64` multiplication: exact on finite values; non-finite operands
propagate. -/
def F64.mul : F64 → F64 → F64
  | .fin a, .fin b => .fin (a * b)
  | _, _ => .nonfinite

/-- `f64` division: exact on finite values with a nonzero divisor; division
by zero is non-finite (IEEE-754: `0.0/0.0` is NaN, `x/0.0` is an infinity);
non-finite operands propagate. -/
def F64.div : F64 → F64 → F64
  | .fin a, .fin b => if b = 0 then .nonfinite else .fin (a / b)
  | _, _ => .nonfinite

/-- `f64` square root, parameterized by the rounded finite square-root
function `sqrtFn` (IEEE-754 `sqrt` of a nonnegative finite value is finite;
of a negative value it is NaN; of a non-finite value, non-finite or NaN). -/
def F64.sqrtWith (sqrtFn : Rat → Rat) : F64 → F64
  | .fin q => if q < 0 then .nonfinite else .fin (sqrtFn q)
  | .nonfinite => .nonfinite

/-- `Vector` from `math.rs`: a 2D `f64` vector. -/
structure Vector where
  x : F64
  y : F64
deriving DecidableEq

/-- `Vector::magnitude` from `math.rs`: `sqrt(x*x + y*y)`. -/
def Vector.magnitude (sqrtFn : Rat → Rat) (v : Vector) : F64 :=
  F64.sqrtWith sqrtFn ((v.x.mul v.x).add (v.y.mul v.y))

/-- `Vector::normalize` from `math.rs`: divides both components by the
magnitude, with no guard against a zero magnitude. -/
def Vector.normalize (sqrtFn : Rat → Rat) (v : Vector) : Vector :=
  let mag := v.magnitude sqrtFn
  ⟨v.x.div mag, v.y.div mag⟩

/-- `Vector::normalized` from `math.rs`: builds the vector `(x, y)` and
normalizes it. -/
def Vector.normalized (sqrtFn : Rat → Rat) (x y : Rat) : Vector :=
  Vector.normalize sqrtFn ⟨.fin x, .fin y⟩

end Fov2d

namespace Fov2d

/-! ## C3: the intersection test's branch characterization -/

/-- The two strict comparisons of `Line::intersects`
(`(v > 0 && v > d) || (v < 0 && v < d)`) hold exactly when `v` lies strictly
outside the closed interval between `0` and `d`. -/
theorem outside_iff (d v : Rat) :
    ((v > 0 ∧ v > d) ∨ (v < 0 ∧ v < d)) ↔ ¬ inClosed d v := by
  constructor
  · rintro (⟨h1, h2⟩ | ⟨h1, h2⟩) (⟨h3, h4⟩ | ⟨h3, h4⟩) <;> linarith
  · intro h
    by_contra hn
    push_neg at hn
    obtain ⟨hn1, hn2⟩ := hn
    rcases lt_trichotomy v 0 with ht | ht | ht
    · exact h (Or.inr ⟨hn2 ht, le_of_lt ht⟩)
    · subst ht
      rcases le_total 0 d with hd | hd
      · exact h (Or.inl ⟨le_refl 0, hd⟩)
      · exact h (Or.inr ⟨hd, le_refl 0⟩)
    · exact h (Or.inl ⟨le_of_lt ht, hn1 ht⟩)

/-- `Line::intersects` written with the named `denom` / `t_num` / `u_num`
subexpressions. -/
theorem intersects_eq (a b : Line) : a.intersects b =
    (if a.denom b = 0 then false
     else if (a.t_num b > 0 ∧ a.t_num b > a.denom b) ∨
         (a.t_num b < 0 ∧ a.t_num b < a.denom b) then false
     else if (a.u_num b > 0 ∧ a.u_num b > a.denom b) ∨
         (a.u_num b < 0 ∧ a.u_num b < a.denom b) then false
     else true) := rfl

/-- C3.  `Line::intersects(A, B)` returns `false` exactly when
`denom = (x1-x2)(y3-y4) - (y1-y2)(x3-x4)` is zero, or `t_num` or `u_num`
lies strictly outside the closed interval between `0` and `denom`
(sign-aware).  In particular the boundary cases `t_num = 0` and
`t_num = denom` (and likewise for `u_num`) are reported as intersecting
(closed-interval semantics), and collinear overlapping segments, having
`denom = 0`, are never reported as intersecting. -/
theorem intersects_eq_false_iff (a b : Line) : a.intersects b = false ↔
    (a.denom b = 0 ∨ ¬ inClosed (a.denom b) (a.t_num b) ∨
      ¬ inClosed (a.denom b) (a.u_num b)) := by
  rw [intersects_eq]
  split_ifs with h1 h2 h3
  · simp only [true_iff]
    exact Or.inl h1
  · simp only [true_iff]
    exact Or.inr (Or.inl ((outside_iff _ _).mp h2))
  · simp only [true_iff]
    exact Or.inr (Or.inr ((outside_iff _ _).mp h3))
  · simp only [Bool.true_eq_false, false_iff]
    rintro (h | h | h)
    · exact h1 h
    · exact h2 ((outside_iff _ _).mpr h)
    · exact h3 ((outside_iff _ _).mpr h)

/-! ## C10: the boolean test and the point-producing variant agree -/

/-- C10.  `Line::intersection(A, B)` returns `Some` point exactly when
`Line::intersects(A, B)` returns `true`: the two functions run the same
three guards and differ only in whether they produce the point. -/
theorem intersection_isSome_eq_intersects (a b : Line) :
    (a.intersection b).isSome = a.intersects b := by
  simp only [Line.intersection, Line.intersects]
  split_ifs <;> rfl

/-! ## C2: line counts per (radius, Q-factor) -/

set_option maxRecDepth 4000 in
/-- C2.  For every supported (radius, Q-factor) pair, `get_fov_lines` returns
exactly `radius_int` lines for `Single` and `2 * radius_int` lines for
`Double` (concretely: R16/Single 16, R16/Double 32, R32/Single 32,
R128/Double 256). -/
theorem get_fov_lines_length (rfov : FovRadius) (qfactor : QFactor) :
    (get_fov_lines rfov qfactor).length =
      (match qfactor with
       | .Single => rfov.to_int
       | .Double => 2 * rfov.to_int) := by
  cases rfov <;> cases qfactor <;> decide

/-! ## C7: octant symmetry of the wall edge tables -/

/-- C7.  The wall edge lookup tables satisfy the octant symmetry pairing:
`wall_n_line` agrees on the octant pairs (O1, O4), (O2, O3), (O5, O8),
(O6, O7), and `wall_w_line` agrees on (O1, O8), (O2, O7), (O3, O6),
(O4, O5). -/
theorem wall_line_octant_pairs :
    wall_n_line .O1 = wall_n_line .O4 ∧ wall_n_line .O2 = wall_n_line .O3 ∧
    wall_n_line .O5 = wall_n_line .O8 ∧ wall_n_line .O6 = wall_n_line .O7 ∧
    wall_w_line .O1 = wall_w_line .O8 ∧ wall_w_line .O2 = wall_w_line .O7 ∧
    wall_w_line .O3 = wall_w_line .O6 ∧ wall_w_line .O4 = wall_w_line .O5 := by
  decide

/-! ## C9: normalization of a zero-magnitude vector -/

/-- C9 counterexample.  Normalizing the zero vector does not fail with a
defined degenerate-vector error: `Vector::normalize` has no zero-magnitude
guard, so both components are divided by a zero magnitude and come out
non-finite (IEEE-754 `0.0/0.0` is NaN).  Evaluated with the square-root
function fixed to the constant `0`, which agrees with IEEE-754 `sqrt` at the
only point the computation evaluates it (`sqrt 0 = 0` exactly). -/
theorem normalize_zero_cex :
    Vector.normalize (fun _ => 0) ⟨.fin 0, .fin 0⟩ = ⟨.nonfinite, .nonfinite⟩ ∧
    Vector.normalized (fun _ => 0) 0 0 = ⟨.nonfinite, .nonfinite⟩ := by
  have hmag : Vector.magnitude (fun _ => 0) ⟨.fin 0, .fin 0⟩ = .fin 0 := by
    simp [Vector.magnitude, F64.sqrtWith, F64.add, F64.mul]
  constructor
  · simp [Vector.normalize, hmag, F64.div]
  · simp [Vector.normalized, Vector.normalize, hmag, F64.div]

/-- C9 as amended.  For every square-root function satisfying the exact
IEEE-754 fact `sqrt 0 = 0`, `Vector::normalize` (and `Vector::normalized`)
on the zero vector silently produces non-finite (NaN) components: there is
no explicit degenerate-vector guard in the code. -/
theorem normalize_zero_amended (sqrtFn : Rat → Rat) (h : sqrtFn 0 = 0) :
    Vector.normalize sqrtFn ⟨.fin 0, .fin 0⟩ = ⟨.nonfinite, .nonfinite⟩ ∧
    Vector.normalized sqrtFn 0 0 = ⟨.nonfinite, .nonfinite⟩ := by
  have hmag : Vector.magnitude sqrtFn ⟨.fin 0, .fin 0⟩ = .fin 0 := by
    simp [Vector.magnitude, F64.sqrtWith, F64.add, F64.mul, h]
  constructor
  · simp [Vector.normalize, hmag, F64.div]
  · simp [Vector.normalized, Vector.normalize, hmag, F64.div]

/-- Witness for C9's amended theorem at the concrete square-root function
constantly `0`. -/
theorem normalize_zero_amended_witness :
    (fun _ => (0 : Rat)) 0 = 0 ∧
    Vector.normalize (fun _ => 0) ⟨.fin 0, .fin 0⟩ = ⟨.nonfinite, .nonfinite⟩ ∧
    Vector.normalized (fun _ => 0) 0 0 = ⟨.nonfinite, .nonfinite⟩ :=
  ⟨rfl, normalize_zero_amended (fun _ => 0) rfl⟩

/-! ## Structural lemmas about the octant sweep -/

/-- The branchless state update of the sweep, written as a case split: when
`dsec` has reached `dsec_target`, advance `dpri` and reset `dsec`; otherwise
advance `dsec`. -/
theorem fov_step_eq (p s t : Nat) :
    fov_step (p, s, t) = if s = t then (p + 1, 0, t + 1) else (p, s + 1, t) := by
  by_cases h : s = t
  · subst h
    simp [fov_step]
  · have hb : (s == t) = false := by
      simpa using h
    simp [fov_step, hb, h]

/-- Invariant of the sweep state `(dpri, dsec, dsec_target)`:
`dsec ≤ dsec_target ≤ dpri`, except that before the first iteration all three
components are `0`.  It holds for the initial state and is preserved by
`fov_step`. -/
def SweepInv (st : SweepState) : Prop :=
  st.2.1 ≤ st.2.2 ∧ st.2.2 ≤ st.1

/-- Every node emitted by the sweep loop carries the body mask computed for
its own offset, satisfies `dsec ≤ dpri`, and has `dpri ≥ 1`. -/
theorem build_go_mem (fov_lines : List Line) (radius : Rat) :
    ∀ (n : Nat) (st : SweepState) (node : FovNode16), SweepInv st →
      node ∈ build_go fov_lines radius n st →
      node.body = body_mask fov_lines node.dpri node.dsec ∧
        node.dsec ≤ node.dpri ∧ 1 ≤ node.dpri := by
  intro n
  induction n with
  | zero =>
    intro st node _ h
    simp [build_go] at h
  | succ n ih =>
    rintro ⟨p, s, t⟩ node hinv hmem
    obtain ⟨h1, h2⟩ : s ≤ t ∧ t ≤ p := hinv
    simp only [build_go, fov_step_eq] at hmem
    by_cases hst : s = t
    · simp only [if_pos hst] at hmem
      have hinv1 : SweepInv (p + 1, 0, t + 1) :=
        ⟨Nat.zero_le _, show t + 1 ≤ p + 1 by omega⟩
      split at hmem
      · exact ih _ node hinv1 hmem
      · rcases List.mem_cons.mp hmem with heq | hmem'
        · subst heq
          exact ⟨rfl, Nat.zero_le _, Nat.succ_le_succ (Nat.zero_le _)⟩
        · exact ih _ node hinv1 hmem'
    · simp only [if_neg hst] at hmem
      have hs : s < t := by omega
      have hinv1 : SweepInv (p, s + 1, t) :=
        ⟨show s + 1 ≤ t by omega, show t ≤ p by omega⟩
      split at hmem
      · exact ih _ node hinv1 hmem
      · rcases List.mem_cons.mp hmem with heq | hmem'
        · subst heq
          exact ⟨rfl, show s + 1 ≤ p by omega, show 1 ≤ p by omega⟩
        · exact ih _ node hinv1 hmem'

/-- Every node emitted by the sweep loop lies strictly after the starting
state in the lexicographic `(dpri, dsec)` order. -/
theorem build_go_lt (fov_lines : List Line) (radius : Rat) :
    ∀ (n : Nat) (st : SweepState) (node : FovNode16),
      node ∈ build_go fov_lines radius n st →
      st.1 < node.dpri ∨ (st.1 = node.dpri ∧ st.2.1 < node.dsec) := by
  intro n
  induction n with
  | zero =>
    intro st node h
    simp [build_go] at h
  | succ n ih =>
    rintro ⟨p, s, t⟩ node hmem
    show p < node.dpri ∨ (p = node.dpri ∧ s < node.dsec)
    simp only [build_go, fov_step_eq] at hmem
    by_cases hst : s = t
    · simp only [if_pos hst] at hmem
      split at hmem
      · have hlt : p + 1 < node.dpri ∨ (p + 1 = node.dpri ∧ 0 < node.dsec) :=
          ih _ node hmem
        omega
      · rcases List.mem_cons.mp hmem with heq | hmem'
        · subst heq
          exact Or.inl (Nat.lt_succ_self p)
        · have hlt : p + 1 < node.dpri ∨ (p + 1 = node.dpri ∧ 0 < node.dsec) :=
            ih _ node hmem'
          omega
    · simp only [if_neg hst] at hmem
      split at hmem
      · have hlt : p < node.dpri ∨ (p = node.dpri ∧ s + 1 < node.dsec) :=
          ih _ node hmem
        omega
      · rcases List.mem_cons.mp hmem with heq | hmem'
        · subst heq
          exact Or.inr ⟨rfl, Nat.lt_succ_self s⟩
        · have hlt : p < node.dpri ∨ (p = node.dpri ∧ s + 1 < node.dsec) :=
            ih _ node hmem'
          omega

/-- The nodes emitted by the sweep loop are chained in the strict sweep
order: consecutive nodes have non-decreasing `dpri`, and strictly increasing
`dsec` when their `dpri` agree. -/
theorem build_go_chain (fov_lines : List Line) (radius : Rat) :
    ∀ (n : Nat) (st : SweepState),
      List.Chain' (fun a b : FovNode16 =>
        a.dpri ≤ b.dpri ∧ (a.dpri = b.dpri → a.dsec < b.dsec))
        (build_go fov_lines radius n st) := by
  intro n
  induction n with
  | zero =>
    intro st
    simp [build_go]
  | succ n ih =>
    intro st
    simp only [build_go]
    split
    · exact ih _
    · refine List.chain'_cons'.mpr ⟨?_, ih _⟩
      intro y hy
      have hmem : y ∈ build_go fov_lines radius n (fov_step st) :=
        List.mem_of_mem_head? hy
      have hlt := build_go_lt fov_lines radius n (fov_step st) y hmem
      refine ⟨show (fov_step st).1 ≤ y.dpri by omega, ?_⟩
      intro heq
      have heq' : (fov_step st).1 = y.dpri := heq
      show (fov_step st).2.1 < y.dsec
      omega

/-! ## Bit-level characterization of the body mask -/

/-- Bit `k` of the accumulator built by the inner bit loop: the starting
accumulator's bit `k`, OR the two-edge intersection result of the line at
list position `k - bit_ix` (when `bit_ix ≤ k` and such a line exists). -/
theorem body_mask_aux_testBit (l1 l2 : Line) :
    ∀ (fov_lines : List Line) (bit_ix acc k : Nat),
      (body_mask_aux l1 l2 fov_lines bit_ix acc).testBit k =
        (acc.testBit k ||
          if bit_ix ≤ k then
            (match fov_lines[k - bit_ix]? with
             | some f => f.intersects l1 || f.intersects l2
             | none => false)
          else false) := by
  intro fov_lines
  induction fov_lines with
  | nil =>
    intro bit_ix acc k
    simp [body_mask_aux]
  | cons f rest ih =>
    intro bit_ix acc k
    show (body_mask_aux l1 l2 rest (bit_ix + 1)
        (acc ||| 2 ^ bit_ix * (f.intersects l1).toNat |||
          2 ^ bit_ix * (f.intersects l2).toNat)).testBit k = _
    rw [ih]
    rw [Nat.testBit_lor, Nat.testBit_lor]
    by_cases hk : bit_ix = k
    · subst hk
      have hr : ¬ bit_ix + 1 ≤ bit_ix := by omega
      rw [if_neg hr, if_pos (le_refl bit_ix), Nat.sub_self]
      simp only [List.getElem?_cons_zero]
      cases hb1 : f.intersects l1 <;> cases hb2 : f.intersects l2 <;>
        simp [Nat.testBit_two_pow_self]
    · have hpow1 : (2 ^ bit_ix * (f.intersects l1).toNat).testBit k = false := by
        cases hb1 : f.intersects l1
        · simp
        · simpa using Nat.testBit_two_pow_of_ne hk
      have hpow2 : (2 ^ bit_ix * (f.intersects l2).toNat).testBit k = false := by
        cases hb2 : f.intersects l2
        · simp
        · simpa using Nat.testBit_two_pow_of_ne hk
      rw [hpow1, hpow2, Bool.or_false, Bool.or_false]
      by_cases hle : bit_ix ≤ k
      · have hle1 : bit_ix + 1 ≤ k := by omega
        rw [if_pos hle1, if_pos hle]
        obtain ⟨j, hj⟩ : ∃ j, k - bit_ix = j + 1 := ⟨k - bit_ix - 1, by omega⟩
        have hj' : k - (bit_ix + 1) = j := by omega
        rw [hj, hj', List.getElem?_cons_succ]
      · have hle1 : ¬ bit_ix + 1 ≤ k := by omega
        rw [if_neg hle1, if_neg hle]

/-- Bit `k` of the complete body mask at offset `(dpri, dsec)`: the
two-translated-edge intersection result of the FOV line at index `k`, when
one exists; `false` otherwise. -/
theorem body_mask_testBit (fov_lines : List Line) (dpri dsec k : Nat) :
    (body_mask fov_lines dpri dsec).testBit k =
      (match fov_lines[k]? with
       | some f =>
         f.intersects (body_lines.1.shifted_by (dpri : Rat) (dsec : Rat)) ||
           f.intersects (body_lines.2.shifted_by (dpri : Rat) (dsec : Rat))
       | none => false) := by
  show (body_mask_aux _ _ fov_lines 0 0).testBit k = _
  rw [body_mask_aux_testBit]
  simp

/-! ## A fixed-point evaluator for concrete instances

Every coordinate occurring in the generated FOV lines, body edges and
radii of this program is an integer multiple of `1/100`.  To evaluate the
rational embedding on concrete inputs efficiently (the `Rat` arithmetic of
the library is deliberately irreducible), we mirror the computations on
segments with integer coordinates scaled by `100`, and prove the mirror
agrees with the rational embedding under the interpretation
`z ↦ (z : Rat) / 100`.  The intersection guards are quadratic in the
coordinates, so they scale uniformly by `100^2 = 10000` and all sign and
order comparisons are preserved exactly. -/

/-- A segment whose coordinates are integers denoting multiples of
`1/100`. -/
structure ILine where
  x1 : Int
  y1 : Int
  x2 : Int
  y2 : Int
deriving DecidableEq

/-- Interpretation of a scaled segment as a rational segment. -/
def ILine.toLine (l : ILine) : Line :=
  ⟨(l.x1 : Rat) / 100, (l.y1 : Rat) / 100, (l.x2 : Rat) / 100, (l.y2 : Rat) / 100⟩

/-- The scaled intersection denominator (`10000` times the rational one). -/
def ILine.denom (a b : ILine) : Int :=
  (a.x1 - a.x2) * (b.y1 - b.y2) - (a.y1 - a.y2) * (b.x1 - b.x2)

/-- The scaled `t` numerator (`10000` times the rational one). -/
def ILine.t_num (a b : ILine) : Int :=
  (a.x1 - b.x1) * (b.y1 - b.y2) - (a.y1 - b.y1) * (b.x1 - b.x2)

/-- The scaled `u` numerator (`10000` times the rational one). -/
def ILine.u_num (a b : ILine) : Int :=
  (a.x1 - b.x1) * (a.y1 - a.y2) - (a.y1 - b.y1) * (a.x1 - a.x2)

/-- The intersection test on scaled segments: the same guards as
`Line::intersects`, over the uniformly scaled integer quantities. -/
def ILine.intersects (a b : ILine) : Bool :=
  if ILine.denom a b = 0 then false
  else if (ILine.t_num a b > 0 ∧ ILine.t_num a b > ILine.denom a b) ∨
      (ILine.t_num a b < 0 ∧ ILine.t_num a b < ILine.denom a b) then false
  else if (ILine.u_num a b > 0 ∧ ILine.u_num a b > ILine.denom a b) ∨
      (ILine.u_num a b < 0 ∧ ILine.u_num a b < ILine.denom a b) then false
  else true

theorem scaled_eq_zero (c : Rat) (hc : 0 < c) (z : Int) :
    ((z : Rat) / c = 0) ↔ z = 0 := by
  rw [div_eq_zero_iff]
  constructor
  · rintro (h | h)
    · exact_mod_cast h
    · exact absurd h (ne_of_gt hc)
  · intro h
    exact Or.inl (by exact_mod_cast h)

theorem scaled_pos (c : Rat) (hc : 0 < c) (z : Int) :
    (0 < (z : Rat) / c) ↔ 0 < z := by
  rw [lt_div_iff₀ hc, zero_mul]
  exact_mod_cast Iff.rfl

theorem scaled_neg (c : Rat) (hc : 0 < c) (z : Int) :
    ((z : Rat) / c < 0) ↔ z < 0 := by
  rw [div_lt_iff₀ hc, zero_mul]
  exact_mod_cast Iff.rfl

theorem scaled_lt (c : Rat) (hc : 0 < c) (z w : Int) :
    ((z : Rat) / c < (w : Rat) / c) ↔ z < w := by
  rw [div_lt_div_iff_of_pos_right hc]
  exact_mod_cast Iff.rfl

theorem toLine_denom (a b : ILine) :
    Line.denom a.toLine b.toLine = (ILine.denom a b : Rat) / 10000 := by
  simp only [Line.denom, ILine.toLine, ILine.denom]
  push_cast
  ring

theorem toLine_t_num (a b : ILine) :
    Line.t_num a.toLine b.toLine = (ILine.t_num a b : Rat) / 10000 := by
  simp only [Line.t_num, ILine.toLine, ILine.t_num]
  push_cast
  ring

theorem toLine_u_num (a b : ILine) :
    Line.u_num a.toLine b.toLine = (ILine.u_num a b : Rat) / 10000 := by
  simp only [Line.u_num, ILine.toLine, ILine.u_num]
  push_cast
  ring

/-- Correctness of the scaled intersection test: it agrees with the
rational `Line::intersects` under the interpretation. -/
theorem toLine_intersects (a b : ILine) :
    Line.intersects a.toLine b.toLine = ILine.intersects a b := by
  have hc : (0 : Rat) < 10000 := by norm_num
  rw [intersects_eq, toLine_denom, toLine_t_num, toLine_u_num]
  unfold ILine.intersects
  simp only [gt_iff_lt, scaled_eq_zero 10000 hc, scaled_pos 10000 hc,
    scaled_neg 10000 hc, scaled_lt 10000 hc]

/-- The first translated body edge at offset `(dpri, dsec)`, scaled. -/
def ibody1 (dpri dsec : Nat) : ILine :=
  ⟨100 * dpri, 100 * dsec, 100 * dpri, 100 * dsec + 100⟩

/-- The second translated body edge at offset `(dpri, dsec)`, scaled. -/
def ibody2 (dpri dsec : Nat) : ILine :=
  ⟨100 * dpri, 100 * dsec, 100 * dpri + 100, 100 * dsec⟩

theorem toLine_ibody1 (dpri dsec : Nat) :
    (ibody1 dpri dsec).toLine =
      body_lines.1.shifted_by (dpri : Rat) (dsec : Rat) := by
  simp only [ibody1, ILine.toLine, body_lines, Line.shifted_by, Line.mk.injEq]
  refine ⟨?_, ?_, ?_, ?_⟩ <;> push_cast <;> ring

theorem toLine_ibody2 (dpri dsec : Nat) :
    (ibody2 dpri dsec).toLine =
      body_lines.2.shifted_by (dpri : Rat) (dsec : Rat) := by
  simp only [ibody2, ILine.toLine, body_lines, Line.shifted_by, Line.mk.injEq]
  refine ⟨?_, ?_, ?_, ?_⟩ <;> push_cast <;> ring

/-- The scaled mirror of the inner bit loop. -/
def ibody_mask_aux (l1 l2 : ILine) : List ILine → Nat → Nat → Nat
  | [], _, body => body
  | fov_line :: rest, bit_ix, body =>
    let to_set := 2 ^ bit_ix
    let body := body ||| to_set * (fov_line.intersects l1).toNat
    let body := body ||| to_set * (fov_line.intersects l2).toNat
    ibody_mask_aux l1 l2 rest (bit_ix + 1) body

/-- The scaled mirror of the body mask computation. -/
def ibody_mask (ilines : List ILine) (dpri dsec : Nat) : Nat :=
  ibody_mask_aux (ibody1 dpri dsec) (ibody2 dpri dsec) ilines 0 0

theorem body_mask_aux_map (il1 il2 : ILine) :
    ∀ (ilines : List ILine) (bit_ix acc : Nat),
      body_mask_aux il1.toLine il2.toLine (ilines.map ILine.toLine) bit_ix acc =
        ibody_mask_aux il1 il2 ilines bit_ix acc := by
  intro ilines
  induction ilines with
  | nil => intro bit_ix acc; rfl
  | cons f rest ih =>
    intro bit_ix acc
    show body_mask_aux il1.toLine il2.toLine (rest.map ILine.toLine) (bit_ix + 1) _ = _
    rw [toLine_intersects, toLine_intersects, ih]
    rfl

/-- Correctness of the scaled body mask. -/
theorem body_mask_map (ilines : List ILine) (dpri dsec : Nat) :
    body_mask (ilines.map ILine.toLine) dpri dsec = ibody_mask ilines dpri dsec := by
  unfold body_mask ibody_mask
  rw [← toLine_ibody1, ← toLine_ibody2]
  exact body_mask_aux_map _ _ ilines 0 0

/-- The scaled mirror of the circular culling test, for a radius that is an
integer multiple of `1/100`. -/
def idist_gt (dpri dsec : Nat) (r : Int) : Bool :=
  r < 0 ∨ 10000 * ((dpri : Int) ^ 2 + (dsec : Int) ^ 2) > r ^ 2

/-- Correctness of the scaled culling test. -/
theorem dist_gt_map (dpri dsec : Nat) (r : Int) :
    dist_u8_gt dpri dsec ((r : Rat) / 100) = idist_gt dpri dsec r := by
  unfold dist_u8_gt idist_gt
  rw [decide_eq_decide]
  have h100 : (0 : Rat) < 100 := by norm_num
  constructor
  · rintro (h | h)
    · exact Or.inl ((scaled_neg 100 h100 r).mp h)
    · refine Or.inr ?_
      rw [div_pow, gt_iff_lt, div_lt_iff₀ (by positivity)] at h
      have h' : ((r ^ 2 : Int) : Rat) <
          ((10000 * ((dpri : Int) ^ 2 + (dsec : Int) ^ 2) : Int) : Rat) := by
        push_cast
        nlinarith [h]
      exact_mod_cast h'
  · rintro (h | h)
    · exact Or.inl ((scaled_neg 100 h100 r).mpr h)
    · refine Or.inr ?_
      rw [div_pow, gt_iff_lt, div_lt_iff₀ (by positivity)]
      have h' : ((r ^ 2 : Int) : Rat) <
          ((10000 * ((dpri : Int) ^ 2 + (dsec : Int) ^ 2) : Int) : Rat) := by
        exact_mod_cast h
      push_cast at h'
      nlinarith [h']

/-- The scaled mirror of the sweep loop. -/
def ibuild_go (ilines : List ILine) (r : Int) :
    Nat → SweepState → List FovNode16
  | 0, _ => []
  | n + 1, st =>
    let st1 := fov_step st
    if idist_gt st1.1 st1.2.1 r then ibuild_go ilines r n st1
    else
      { body := ibody_mask ilines st1.1 st1.2.1,
        dpri := st1.1, dsec := st1.2.1 } :: ibuild_go ilines r n st1

/-- Correctness of the scaled sweep loop. -/
theorem build_go_map (ilines : List ILine) (r : Int) :
    ∀ (n : Nat) (st : SweepState),
      build_go (ilines.map ILine.toLine) ((r : Rat) / 100) n st =
        ibuild_go ilines r n st := by
  intro n
  induction n with
  | zero => intro st; rfl
  | succ n ih =>
    intro st
    show (if dist_u8_gt (fov_step st).1 (fov_step st).2.1 ((r : Rat) / 100)
        then build_go (ilines.map ILine.toLine) ((r : Rat) / 100) n (fov_step st)
        else _ :: build_go (ilines.map ILine.toLine) ((r : Rat) / 100) n (fov_step st)) = _
    rw [dist_gt_map, body_mask_map, ih]
    rfl

/-- The Single-Q R16 FOV lines, scaled: line `n` runs from `(0.5, 0.5)` to
`(16.5, n + 1.01)`, i.e. from `(50, 50)` to `(1650, 100 n + 101)` in
hundredths. -/
def ilines16 : List ILine :=
  (List.range 16).map fun (n : Nat) => ⟨50, 50, 1650, 100 * (n : Int) + 101⟩

/-- The Single-Q R16 FOV lines are the interpretation of the scaled ones. -/
theorem lines16_eq : get_fov_lines .R16 .Single = ilines16.map ILine.toLine := by
  simp only [get_fov_lines, get_fov_lines_single, ilines16]
  rw [List.map_map]
  refine List.map_congr_left fun n _ => ?_
  simp only [Function.comp, ILine.toLine, Line.mk.injEq]
  refine ⟨by norm_num, by norm_num, by norm_num [FovRadius.to_flt], ?_⟩
  push_cast
  ring_nf

/-- The concrete build at R16 / Single-Q / circular adjustment `0.5`, as a
scaled computation. -/
theorem build_half_eq :
    build_fov_nodes_q16 .R16 (get_fov_lines .R16 .Single) 0.5 =
      (⟨65535, 0, 0⟩ : FovNode16) ::
        ibuild_go ilines16 1650 (n_total .R16) (0, 0, 0) := by
  rw [lines16_eq]
  show (⟨65535, 0, 0⟩ : FovNode16) ::
      build_go (ilines16.map ILine.toLine) (FovRadius.to_flt .R16 + 0.5)
        (n_total .R16) (0, 0, 0) = _
  rw [show FovRadius.to_flt .R16 + (0.5 : Rat) = ((1650 : Int) : Rat) / 100 by
    norm_num [FovRadius.to_flt]]
  rw [build_go_map]

/-- The concrete build at R16 / Single-Q / circular adjustment `7`, as a
scaled computation. -/
theorem build_seven_eq :
    build_fov_nodes_q16 .R16 (get_fov_lines .R16 .Single) 7 =
      (⟨65535, 0, 0⟩ : FovNode16) ::
        ibuild_go ilines16 2300 (n_total .R16) (0, 0, 0) := by
  rw [lines16_eq]
  show (⟨65535, 0, 0⟩ : FovNode16) ::
      build_go (ilines16.map ILine.toLine) (FovRadius.to_flt .R16 + 7)
        (n_total .R16) (0, 0, 0) = _
  rw [show FovRadius.to_flt .R16 + (7 : Rat) = ((2300 : Int) : Rat) / 100 by
    norm_num [FovRadius.to_flt]]
  rw [build_go_map]

/-- The concrete build at R16 with an empty line list and circular
adjustment `0`, as a scaled computation. -/
theorem build_r16_empty_eq :
    build_fov_nodes_q16 .R16 ([] : List Line) 0 =
      (⟨65535, 0, 0⟩ : FovNode16) ::
        ibuild_go [] 1600 (n_total .R16) (0, 0, 0) := by
  show (⟨65535, 0, 0⟩ : FovNode16) ::
      build_go (([] : List ILine).map ILine.toLine) (FovRadius.to_flt .R16 + 0)
        (n_total .R16) (0, 0, 0) = _
  rw [show FovRadius.to_flt .R16 + (0 : Rat) = ((1600 : Int) : Rat) / 100 by
    norm_num [FovRadius.to_flt]]
  rw [build_go_map]

/-! ## C1: node body bits record sightline/edge intersections -/

/-- C1.  For every node produced by `build_fov_nodes_q16` at radius R16 with
the Single-Q FOV lines and any circular adjustment, other than the origin
seed node (the list's tail), and every sightline index `i` of the supplied
FOV lines, bit `i` of the node's body mask is set exactly when sightline `i`
intersects at least one of the two canonical body edge segments translated
by the node's `(dpri, dsec)` offset (logical OR across the two edges). -/
theorem node_body_bit_iff (circ_adj : Rat) (node : FovNode16)
    (hmem : node ∈
      (build_fov_nodes_q16 .R16 (get_fov_lines .R16 .Single) circ_adj).tail)
    (i : Nat) (f : Line)
    (hf : (get_fov_lines .R16 .Single)[i]? = some f) :
    node.body.testBit i =
      (f.intersects (body_lines.1.shifted_by (node.dpri : Rat) (node.dsec : Rat)) ||
       f.intersects (body_lines.2.shifted_by (node.dpri : Rat) (node.dsec : Rat))) := by
  have hmem' : node ∈ build_go (get_fov_lines .R16 .Single)
      (FovRadius.to_flt .R16 + circ_adj) (n_total .R16) (0, 0, 0) := hmem
  have h := build_go_mem (get_fov_lines .R16 .Single)
    (FovRadius.to_flt .R16 + circ_adj) (n_total .R16) (0, 0, 0) node
    ⟨le_refl 0, le_refl 0⟩ hmem'
  rw [h.1, body_mask_testBit, hf]

/-- Witness for C1 at circular adjustment `0.5`, the first non-seed node
`(dpri, dsec) = (1, 0)` (whose mask has all 16 bits set), and sightline 0. -/
theorem node_body_bit_iff_witness :
    ((⟨65535, 1, 0⟩ : FovNode16) ∈
      (build_fov_nodes_q16 .R16 (get_fov_lines .R16 .Single) 0.5).tail) ∧
    ((get_fov_lines .R16 .Single)[0]? = some ⟨0.5, 0.5, 16.5, 1.01⟩) ∧
    (⟨65535, 1, 0⟩ : FovNode16).body.testBit 0 =
      ((Line.mk 0.5 0.5 16.5 1.01).intersects
        (body_lines.1.shifted_by (((⟨65535, 1, 0⟩ : FovNode16).dpri : Nat) : Rat)
          (((⟨65535, 1, 0⟩ : FovNode16).dsec : Nat) : Rat)) ||
       (Line.mk 0.5 0.5 16.5 1.01).intersects
        (body_lines.2.shifted_by (((⟨65535, 1, 0⟩ : FovNode16).dpri : Nat) : Rat)
          (((⟨65535, 1, 0⟩ : FovNode16).dsec : Nat) : Rat))) := by
  have hh : (build_fov_nodes_q16 .R16 (get_fov_lines .R16 .Single) 0.5).tail.head?
      = some ⟨65535, 1, 0⟩ := by
    rw [build_half_eq]
    decide
  have hm : (⟨65535, 1, 0⟩ : FovNode16) ∈
      (build_fov_nodes_q16 .R16 (get_fov_lines .R16 .Single) 0.5).tail :=
    List.mem_of_mem_head? hh
  have hf0 : (ilines16.map ILine.toLine)[0]? =
      some (ILine.toLine ⟨50, 50, 1650, 101⟩) := rfl
  have hval : ILine.toLine ⟨50, 50, 1650, 101⟩ = ⟨0.5, 0.5, 16.5, 1.01⟩ := by
    simp only [ILine.toLine, Line.mk.injEq]
    refine ⟨by norm_num, by norm_num, by norm_num, by norm_num⟩
  have hf : (get_fov_lines .R16 .Single)[0]? = some ⟨0.5, 0.5, 16.5, 1.01⟩ := by
    rw [lines16_eq, hf0, hval]
  exact ⟨hm, hf, node_body_bit_iff 0.5 ⟨65535, 1, 0⟩ hm 0 ⟨0.5, 0.5, 16.5, 1.01⟩ hf⟩

/-! ## C4: the origin seed node -/

/-- C4.  For every circular adjustment (and any radius and FOV line list),
the first node of the sequence returned by `build_fov_nodes_q16` has offset
`(0, 0)` and the fully set 16-bit body mask `u16::MAX = 65535 = 2^16 - 1`,
and it is the only node at offset `(0, 0)`: every other node has a nonzero
offset. -/
theorem build_origin_seed (rfov : FovRadius) (fov_lines : List Line)
    (circ_adj : Rat) :
    (build_fov_nodes_q16 rfov fov_lines circ_adj).head? =
      some ⟨65535, 0, 0⟩ ∧
    ∀ node ∈ (build_fov_nodes_q16 rfov fov_lines circ_adj).tail,
      ¬(node.dpri = 0 ∧ node.dsec = 0) := by
  constructor
  · rfl
  · intro node hmem
    have hmem' : node ∈ build_go fov_lines (rfov.to_flt + circ_adj)
        (n_total rfov) (0, 0, 0) := hmem
    have h := build_go_mem fov_lines (rfov.to_flt + circ_adj) (n_total rfov)
      (0, 0, 0) node ⟨le_refl 0, le_refl 0⟩ hmem'
    have h1 := h.2.2
    omega

/-- Witness for C4 at radius R16, the empty FOV line list and circular
adjustment `0`, applied to the first non-seed node `(1, 0)`. -/
theorem build_origin_seed_witness :
    ¬((⟨0, 1, 0⟩ : FovNode16).dpri = 0 ∧ (⟨0, 1, 0⟩ : FovNode16).dsec = 0) := by
  have hh : (build_fov_nodes_q16 .R16 ([] : List Line) 0).tail.head?
      = some ⟨0, 1, 0⟩ := by
    rw [build_r16_empty_eq]
    decide
  exact (build_origin_seed .R16 [] 0).2 ⟨0, 1, 0⟩ (List.mem_of_mem_head? hh)

/-! ## C5: sweep ordering of the node sequence -/

/-- C5.  In every node sequence returned by `build_fov_nodes_q16` (any
radius, FOV lines and circular adjustment), consecutive nodes have
non-decreasing `dpri`, and strictly increasing `dsec` whenever their `dpri`
are equal; moreover every node satisfies `dsec ≤ dpri`. -/
theorem build_sweep_order (rfov : FovRadius) (fov_lines : List Line)
    (circ_adj : Rat) :
    List.Chain' (fun a b : FovNode16 =>
        a.dpri ≤ b.dpri ∧ (a.dpri = b.dpri → a.dsec < b.dsec))
      (build_fov_nodes_q16 rfov fov_lines circ_adj) ∧
    ∀ node ∈ build_fov_nodes_q16 rfov fov_lines circ_adj,
      node.dsec ≤ node.dpri := by
  constructor
  · show List.Chain' _ ((⟨65535, 0, 0⟩ : FovNode16) ::
      build_go fov_lines (rfov.to_flt + circ_adj) (n_total rfov) (0, 0, 0))
    refine List.chain'_cons'.mpr ⟨?_, build_go_chain _ _ _ _⟩
    intro y hy
    have hmem := List.mem_of_mem_head? hy
    have hlt : (0 : Nat) < y.dpri ∨ ((0 : Nat) = y.dpri ∧ (0 : Nat) < y.dsec) :=
      build_go_lt fov_lines (rfov.to_flt + circ_adj) (n_total rfov) (0, 0, 0)
        y hmem
    refine ⟨show (0 : Nat) ≤ y.dpri from Nat.zero_le _, fun h => ?_⟩
    have h' : (0 : Nat) = y.dpri := h
    show (0 : Nat) < y.dsec
    omega
  · intro node hmem
    have hmem' : node ∈ (⟨65535, 0, 0⟩ : FovNode16) ::
        build_go fov_lines (rfov.to_flt + circ_adj) (n_total rfov) (0, 0, 0) :=
      hmem
    rcases List.mem_cons.mp hmem' with heq | hm
    · subst heq
      exact Nat.le_refl 0
    · exact (build_go_mem fov_lines (rfov.to_flt + circ_adj) (n_total rfov)
        (0, 0, 0) node ⟨le_refl 0, le_refl 0⟩ hm).2.1

/-- Witness for C5 at radius R16, the empty FOV line list and circular
adjustment `0`, applied to the first non-seed node `(1, 0)`. -/
theorem build_sweep_order_witness :
    (⟨0, 1, 0⟩ : FovNode16).dsec ≤ (⟨0, 1, 0⟩ : FovNode16).dpri := by
  have hh : (build_fov_nodes_q16 .R16 ([] : List Line) 0).tail.head?
      = some ⟨0, 1, 0⟩ := by
    rw [build_r16_empty_eq]
    decide
  have hm : (⟨0, 1, 0⟩ : FovNode16) ∈ build_fov_nodes_q16 .R16 ([] : List Line) 0 :=
    List.mem_cons_of_mem _ (List.mem_of_mem_head? hh)
  exact (build_sweep_order .R16 [] 0).2 ⟨0, 1, 0⟩ hm

/-! ## C6: bit counts at maximum primary distance -/

set_option maxRecDepth 20000 in
/-- C6 counterexample.  The claim that every surviving node at
`(dpri, dsec) = (16, sec)` with `sec > 0` has more than one body bit set
fails for the corner node `(16, 16)`: with circular adjustment `7` (radius
`23 ≥ sqrt 512`), the corner survives culling, and its body mask `32768`
(bit 15 alone) has exactly one bit set. -/
theorem max_pri_corner_cex :
    (⟨32768, 16, 16⟩ : FovNode16) ∈
      build_fov_nodes_q16 .R16 (get_fov_lines .R16 .Single) 7 ∧
    ¬ 1 < u16_count_ones (⟨32768, 16, 16⟩ : FovNode16).body := by
  constructor
  · rw [build_seven_eq]
    decide
  · decide

set_option maxRecDepth 20000 in
/-- C6 as amended.  In the node sequence built by `build_fov_nodes_q16` for
R16/Single and any circular adjustment, every node at `dpri = 16` has:
exactly one body bit set when `dsec = 0`; more than one body bit set when
`0 < dsec < 16`; and exactly one body bit set when `dsec = 16` (the corner
node, which survives culling only when the circular adjustment is at least
`sqrt 512 - 16 ≈ 6.63` — in particular not at the customary `0.5`). -/
theorem max_pri_bits_amended (circ_adj : Rat) (node : FovNode16)
    (hmem : node ∈ build_fov_nodes_q16 .R16 (get_fov_lines .R16 .Single) circ_adj)
    (hpri : node.dpri = 16) :
    (node.dsec = 0 → u16_count_ones node.body = 1) ∧
    (0 < node.dsec → node.dsec < 16 → 1 < u16_count_ones node.body) ∧
    (node.dsec = 16 → u16_count_ones node.body = 1) := by
  have hmem' : node ∈ (⟨65535, 0, 0⟩ : FovNode16) ::
      build_go (get_fov_lines .R16 .Single) (FovRadius.to_flt .R16 + circ_adj)
        (n_total .R16) (0, 0, 0) := hmem
  rcases List.mem_cons.mp hmem' with heq | hm
  · exfalso
    rw [heq] at hpri
    exact absurd hpri (by decide)
  · have h := build_go_mem (get_fov_lines .R16 .Single)
      (FovRadius.to_flt .R16 + circ_adj) (n_total .R16) (0, 0, 0) node
      ⟨le_refl 0, le_refl 0⟩ hm
    have hbm : body_mask (get_fov_lines .R16 .Single) node.dpri node.dsec
        = ibody_mask ilines16 node.dpri node.dsec := by
      rw [lines16_eq, body_mask_map]
    have hkey : ∀ s, s < 17 →
        (s = 0 → u16_count_ones (ibody_mask ilines16 16 s) = 1) ∧
        (0 < s → s < 16 → 1 < u16_count_ones (ibody_mask ilines16 16 s)) ∧
        (s = 16 → u16_count_ones (ibody_mask ilines16 16 s) = 1) := by decide
    have hs : node.dsec < 17 := by
      have h21 := h.2.1
      omega
    rw [h.1, hbm, hpri]
    exact hkey node.dsec hs

set_option maxRecDepth 20000 in
/-- Witness for C6's amended theorem at circular adjustment `0.5` and the
node `(16, 0)`, whose body mask is `1` (bit 0 alone). -/
theorem max_pri_bits_amended_witness :
    ((⟨1, 16, 0⟩ : FovNode16) ∈
      build_fov_nodes_q16 .R16 (get_fov_lines .R16 .Single) 0.5) ∧
    (⟨1, 16, 0⟩ : FovNode16).dpri = 16 ∧
    (((⟨1, 16, 0⟩ : FovNode16).dsec = 0 →
        u16_count_ones (⟨1, 16, 0⟩ : FovNode16).body = 1) ∧
     (0 < (⟨1, 16, 0⟩ : FovNode16).dsec → (⟨1, 16, 0⟩ : FovNode16).dsec < 16 →
        1 < u16_count_ones (⟨1, 16, 0⟩ : FovNode16).body) ∧
     ((⟨1, 16, 0⟩ : FovNode16).dsec = 16 →
        u16_count_ones (⟨1, 16, 0⟩ : FovNode16).body = 1)) := by
  have hm : (⟨1, 16, 0⟩ : FovNode16) ∈
      build_fov_nodes_q16 .R16 (get_fov_lines .R16 .Single) 0.5 := by
    rw [build_half_eq]
    decide
  exact ⟨hm, rfl, max_pri_bits_amended 0.5 ⟨1, 16, 0⟩ hm rfl⟩

/-! ## C8: node count and circular culling at R16 / circ 0.5 -/

set_option maxRecDepth 20000 in
/-- C8 counterexample.  The node sequence built for R16/Single with circular
adjustment `0.5` has total length `122` (seed included): less than the full
triangular count `152`, but not greater than `130` as the claim requires. -/
theorem node_count_cex :
    (build_fov_nodes_q16 .R16 (get_fov_lines .R16 .Single) 0.5).length = 122 ∧
    ¬ 130 < (build_fov_nodes_q16 .R16 (get_fov_lines .R16 .Single) 0.5).length := by
  constructor <;> rw [build_half_eq] <;> decide

set_option maxRecDepth 20000 in
/-- C8 as amended.  The node sequence built for R16/Single with circular
adjustment `0.5` has total length (seed included) strictly less than `152`
and strictly greater than `121` (it is exactly `122`), and every non-seed
node lies within Euclidean distance `16.5` of the origin:
`dpri^2 + dsec^2 ≤ 16.5^2` (equivalently `sqrt (dpri^2 + dsec^2) ≤ 16.5`,
both sides being nonnegative). -/
theorem node_count_amended :
    (build_fov_nodes_q16 .R16 (get_fov_lines .R16 .Single) 0.5).length < 152 ∧
    121 < (build_fov_nodes_q16 .R16 (get_fov_lines .R16 .Single) 0.5).length ∧
    ∀ node ∈ (build_fov_nodes_q16 .R16 (get_fov_lines .R16 .Single) 0.5).tail,
      (node.dpri : Rat) ^ 2 + (node.dsec : Rat) ^ 2 ≤ 16.5 ^ 2 := by
  refine ⟨by rw [build_half_eq]; decide, by rw [build_half_eq]; decide, ?_⟩
  intro node hmem
  rw [build_half_eq] at hmem
  have hint : ∀ nd ∈ ibuild_go ilines16 1650 (n_total .R16) (0, 0, 0),
      10000 * (nd.dpri ^ 2 + nd.dsec ^ 2) ≤ 2722500 := by decide
  have hn := hint node hmem
  have hq : ((10000 * (node.dpri ^ 2 + node.dsec ^ 2) : Nat) : Rat)
      ≤ ((2722500 : Nat) : Rat) := by exact_mod_cast hn
  push_cast at hq
  nlinarith [hq]

set_option maxRecDepth 20000 in
/-- Witness for C8's amended theorem at the first non-seed node `(1, 0)`. -/
theorem node_count_amended_witness :
    ((⟨65535, 1, 0⟩ : FovNode16) ∈
      (build_fov_nodes_q16 .R16 (get_fov_lines .R16 .Single) 0.5).tail) ∧
    ((⟨65535, 1, 0⟩ : FovNode16).dpri : Rat) ^ 2 +
      ((⟨65535, 1, 0⟩ : FovNode16).dsec : Rat) ^ 2 ≤ 16.5 ^ 2 := by
  have hh : (build_fov_nodes_q16 .R16 (get_fov_lines .R16 .Single) 0.5).tail.head?
      = some ⟨65535, 1, 0⟩ := by
    rw [build_half_eq]
    decide
  have hm : (⟨65535, 1, 0⟩ : FovNode16) ∈
      (build_fov_nodes_q16 .R16 (get_fov_lines .R16 .Single) 0.5).tail :=
    List.mem_of_mem_head? hh
  exact ⟨hm, node_count_amended.2.2 ⟨65535, 1, 0⟩ hm⟩

end Fov2d
